import Mathlib

/-!
Shallow embedding of `src/gps_navigation_ucs.py` (SmartPath — Philippine Highway
Navigator using Uniform Cost Search).

Modelling conventions:
* Python `float` values (distances, traffic factors, tolls, costs) are embedded
  as exact rationals `ℚ`.
* Python `dict` (insertion-ordered, unique keys) is embedded as an association
  list `List (String × α)`; `dictLookup` finds the first binding, `dictSet`
  overwrites the binding in place (or appends a new one at the end), matching
  `d[k] = v`, and `dictAppend` mutates the list stored at an existing key,
  matching `d[k].append(x)`.
* The `heapq` priority queue holds tuples `(cost, location, path_info)` and
  `heappop` always returns the least tuple under Python's lexicographic tuple
  and list comparison.  We embed the queue as a list kept sorted by exactly
  that lexicographic order (`Entry.key`): `orderedInsert` for `heappush` and
  taking the head for `heappop`.  Both representations hold the same multiset
  of entries and both pop its least element, so the popped values coincide.
* The `while priority_queue:` loop need not terminate (e.g. on negative-cost
  cycles), so the loop is embedded with an explicit fuel parameter; `none`
  means the fuel ran out, `some r` means the Python loop returned `r`.
* All `print`/`input`/`time.sleep`/`os.system` calls and the `show_steps`
  animation are presentation-only and have no effect on the returned value;
  they are omitted, as are the write-only `self.start`/`self.goal` fields.
-/

namespace SmartPath

/-- One directed adjacency record, the Python tuple
`(neighbor, total_cost, distance_km, traffic_factor, toll_php, highway_name)`
appended by `add_highway` (src lines 33–34). -/
structure Highway where
  neighbor : String
  cost : ℚ
  distance_km : ℚ
  traffic_factor : ℚ
  toll_php : ℚ
  highway_name : String
deriving DecidableEq

/-- One waypoint of `path_info`, the Python tuple
`(location, cumulative_cost, cumulative_distance, cumulative_toll, highway_used)`
(src line 90). -/
structure Waypoint where
  location : String
  cumulative_cost : ℚ
  cumulative_distance : ℚ
  cumulative_toll : ℚ
  highway_used : String
deriving DecidableEq

/-- First-match lookup in an association list: the embedding of `d[k]` /
`k in d` for a Python dict. -/
def dictLookup {α : Type} : List (String × α) → String → Option α
  | [], _ => none
  | (k', v) :: rest, k => if k = k' then some v else dictLookup rest k

/-- Embedding of `d[k] = v` on a Python dict: overwrite the binding in place,
or append a fresh binding at the end (dicts are insertion ordered). -/
def dictSet {α : Type} : List (String × α) → String → α → List (String × α)
  | [], k, v => [(k, v)]
  | (k', v') :: rest, k, v =>
      if k = k' then (k, v) :: rest else (k', v') :: dictSet rest k v

/-- Embedding of `d[k].append(x)` for the adjacency dict: append `x` to the
list stored at the first binding of `k` (a no-op if `k` is absent; the code
only calls it on present keys). -/
def dictAppend : List (String × List Highway) → String → Highway →
    List (String × List Highway)
  | [], _, _ => []
  | (k', es) :: rest, k, h =>
      if k = k' then (k', es ++ [h]) :: rest else (k', es) :: dictAppend rest k h

/-- The navigator object: `self.graph` (adjacency lists with costs) and
`self.locations` (display-name mapping), src lines 6–11. -/
structure PhilippineHighwayNavigatorUCS where
  graph : List (String × List Highway)
  locations : List (String × String)
deriving DecidableEq

/-- A fresh navigator, the `__init__` state. -/
def emptyNavigator : PhilippineHighwayNavigatorUCS := ⟨[], []⟩

/-- Embedding of `add_location` (src lines 13–17). -/
def add_location (nav : PhilippineHighwayNavigatorUCS)
    (location_id name : String) : PhilippineHighwayNavigatorUCS :=
  { locations := dictSet nav.locations location_id name
    graph :=
      if (dictLookup nav.graph location_id).isSome then nav.graph
      else nav.graph ++ [(location_id, [])] }

/-- Helper for the `if loc not in self.graph: self.graph[loc] = []` lines
(src lines 28–31). -/
def ensureKey (g : List (String × List Highway)) (k : String) :
    List (String × List Highway) :=
  if (dictLookup g k).isSome then g else g ++ [(k, [])]

/-- Embedding of `add_highway` (src lines 19–34):
`total_cost = distance_km * traffic_factor + toll_php / 10`, then one directed
record appended to each endpoint's adjacency list. -/
def add_highway (nav : PhilippineHighwayNavigatorUCS)
    (from_loc to_loc : String) (distance_km traffic_factor toll_php : ℚ)
    (highway_name : String) : PhilippineHighwayNavigatorUCS :=
  let total_cost : ℚ := distance_km * traffic_factor + toll_php / 10
  let g := ensureKey (ensureKey nav.graph from_loc) to_loc
  let g := dictAppend g from_loc
    ⟨to_loc, total_cost, distance_km, traffic_factor, toll_php, highway_name⟩
  let g := dictAppend g to_loc
    ⟨from_loc, total_cost, distance_km, traffic_factor, toll_php, highway_name⟩
  { nav with graph := g }

/-- A frontier entry, the Python heap tuple
`(cost, current_location, path_info)` (src line 89). -/
structure Entry where
  cost : ℚ
  location : String
  path_info : List Waypoint
deriving DecidableEq

/-- Lexicographic sort key of a waypoint tuple, mirroring Python's
component-wise tuple comparison. -/
def Waypoint.key (w : Waypoint) : String ×ₗ ℚ ×ₗ ℚ ×ₗ ℚ ×ₗ String :=
  toLex (w.location, toLex (w.cumulative_cost, toLex (w.cumulative_distance,
    toLex (w.cumulative_toll, w.highway_used))))

theorem waypoint_key_injective : Function.Injective Waypoint.key := by
  intro a b h
  cases a
  cases b
  simp only [Waypoint.key, toLex_inj, Prod.mk.injEq] at h
  simp_all

instance : LinearOrder Waypoint := LinearOrder.lift' Waypoint.key waypoint_key_injective

/-- Lexicographic sort key of a heap entry, mirroring Python's comparison of
`(cost, location, path_info)` tuples (list comparison is itself
lexicographic). -/
def Entry.key (e : Entry) : ℚ ×ₗ String ×ₗ List Waypoint :=
  toLex (e.cost, toLex (e.location, e.path_info))

theorem entry_key_injective : Function.Injective Entry.key := by
  intro a b h
  cases a
  cases b
  simp only [Entry.key, toLex_inj, Prod.mk.injEq] at h
  simp_all

instance : LinearOrder Entry := LinearOrder.lift' Entry.key entry_key_injective

/-- The result value of `ucs_search`: either the success 4-tuple
`(path_info, total_cost, total_distance, total_toll)` or the
`(None, None, None, None)` value returned on both failure paths
(src lines 77 and 179). -/
inductive SearchResult where
  | found (path_info : List Waypoint)
      (total_cost total_distance total_toll : ℚ)
  | noRoute
deriving DecidableEq

/-- The initial waypoint `(start, 0, 0, 0, "Starting Point")` (src line 91). -/
def startWaypoint (start : String) : Waypoint :=
  ⟨start, 0, 0, 0, "Starting Point"⟩

/-- Embedding of `path_info[-1]`, with the `if path_info else 0` guard of src
lines 156–157 folded in (on the goal branch, src line 136, `path_info` is
always non-empty in reachable states). -/
def lastWaypoint (path_info : List Waypoint) : Waypoint :=
  path_info.getLast?.getD ⟨"", 0, 0, 0, ""⟩

/-- The adjacency records reachable from `u`, the embedding of
`self.graph[current_location]` guarded by `current_location in self.graph`
(src lines 143–144). -/
def edgesOf (G : List (String × List Highway)) (u : String) : List Highway :=
  (dictLookup G u).getD []

/-- The stale-entry test of src lines 100–101:
`current_location in visited and visited[current_location] <= current_cost`. -/
def isStale (visited : List (String × ℚ)) (e : Entry) : Bool :=
  match dictLookup visited e.location with
  | some best => decide (best ≤ e.cost)
  | none => false

/-- The push guard of src line 154:
`neighbor not in visited or visited[neighbor] > new_cost`. -/
def shouldPush (visited : List (String × ℚ)) (new_cost : ℚ)
    (neighbor : String) : Bool :=
  match dictLookup visited neighbor with
  | some best => decide (new_cost < best)
  | none => true

/-- The new frontier entry built at src lines 150–167 when expanding `current`
along record `h`. -/
def pushEntry (current : Entry) (h : Highway) : Entry :=
  let last := lastWaypoint current.path_info
  { cost := current.cost + h.cost
    location := h.neighbor
    path_info := current.path_info ++
      [⟨h.neighbor, current.cost + h.cost,
        last.cumulative_distance + h.distance_km,
        last.cumulative_toll + h.toll_php,
        if h.highway_name = "" then "Local Road" else h.highway_name⟩] }

/-- The `for neighbor, ... in neighbors:` loop of src lines 150–174: push each
admissible extension into the (sorted) frontier. -/
def pushNeighbors (visited : List (String × ℚ)) (current : Entry) :
    List Highway → List Entry → List Entry
  | [], q => q
  | h :: rest, q =>
      pushNeighbors visited current rest
        (if shouldPush visited (current.cost + h.cost) h.neighbor then
          q.orderedInsert (· ≤ ·) (pushEntry current h)
        else q)

/-- The `while priority_queue:` loop of src lines 95–179, with explicit fuel.
`none` means the fuel ran out before the Python loop returned.  On the goal
branch the update `visited[current_location] = current_cost` of src line 103
is dropped: the function returns immediately and the table is dead, so the
returned value is unchanged. -/
def ucsLoop (graph : List (String × List Highway)) (goal : String) :
    Nat → List Entry → List (String × ℚ) → Option SearchResult
  | 0, _, _ => none
  | _ + 1, [], _ => some .noRoute
  | fuel + 1, e :: rest, visited =>
    if isStale visited e then ucsLoop graph goal fuel rest visited
    else if e.location = goal then
      some (.found e.path_info e.cost
        (lastWaypoint e.path_info).cumulative_distance
        (lastWaypoint e.path_info).cumulative_toll)
    else
      ucsLoop graph goal fuel
        (pushNeighbors (dictSet visited e.location e.cost) e
          (edgesOf graph e.location) rest)
        (dictSet visited e.location e.cost)

/-- Embedding of `ucs_search` (src lines 67–179). -/
def ucs_search (nav : PhilippineHighwayNavigatorUCS) (start goal : String)
    (fuel : Nat) : Option SearchResult :=
  if (dictLookup nav.graph start).isNone || (dictLookup nav.graph goal).isNone then
    some .noRoute
  else
    ucsLoop nav.graph goal fuel [⟨0, start, [startWaypoint start]⟩] []

/-- The average-speed constant of src line 220. -/
def avg_speed : ℚ := 60

/-- Embedding of `estimated_hours = total_distance / avg_speed` (src line 221). -/
def estimated_hours (total_distance : ℚ) : ℚ := total_distance / avg_speed

/-- Embedding of `fuel_cost = total_distance * 2.5` (src line 222). -/
def fuel_cost (total_distance : ℚ) : ℚ := total_distance * 2.5

/-- Embedding of the printed total trip cost `total_toll + fuel_cost`
(src line 227). -/
def trip_cost (total_toll total_distance : ℚ) : ℚ :=
  total_toll + fuel_cost total_distance


/-- The relation between consecutive ledger waypoints: the later one extends
the earlier by exactly one adjacency record of the earlier node, with the
cumulative fields advanced by that record's per-edge fields and the label
defaulted to `"Local Road"` (src lines 150–167). -/
def LedgerStep (G : List (String × List Highway)) (w1 w2 : Waypoint) : Prop :=
  ∃ h ∈ edgesOf G w1.location, h.neighbor = w2.location ∧
    w2.cumulative_cost = w1.cumulative_cost + h.cost ∧
    w2.cumulative_distance = w1.cumulative_distance + h.distance_km ∧
    w2.cumulative_toll = w1.cumulative_toll + h.toll_php ∧
    w2.highway_used = (if h.highway_name = "" then "Local Road" else h.highway_name)

/-- Total indexing into a ledger (junk default off the end). -/
def wpAt (L : List Waypoint) (i : Nat) : Waypoint := L.getD i ⟨"", 0, 0, 0, ""⟩

/-- Total indexing into a record list (junk default off the end). -/
def recAt (rs : List Highway) (i : Nat) : Highway := rs.getD i ⟨"", 0, 0, 0, 0, ""⟩

/-- Structural invariant of a frontier entry: its ledger starts at the start
waypoint, ends at the entry's own location and cost, and consecutive
waypoints are linked by adjacency records. -/
structure GoodEntry (G : List (String × List Highway)) (start : String)
    (e : Entry) : Prop where
  head : e.path_info.head? = some (startWaypoint start)
  lastLoc : (lastWaypoint e.path_info).location = e.location
  lastCost : (lastWaypoint e.path_info).cumulative_cost = e.cost
  chain : List.Chain' (LedgerStep G) e.path_info

/-! ### Concrete navigators used by the claims -/

/-- The spec's concrete three-node scenario: nodes `A`, `B`, `C` with
bidirectional edges A–B (distance 80, traffic 1.3, toll 180),
B–C (distance 55, traffic 1.1, toll 95) and A–C (distance 200, traffic 1.0,
toll 0). -/
def scenarioABC : PhilippineHighwayNavigatorUCS :=
  add_highway (add_highway (add_highway
    (add_location (add_location (add_location emptyNavigator "A" "A") "B" "B")
      "C" "C")
    "A" "B" 80 1.3 180 "AB") "B" "C" 55 1.1 95 "BC") "A" "C" 200 1 0 "AC"

/-- Two registered nodes with no highways: a search between them exhausts the
frontier. -/
def navDisconnected : PhilippineHighwayNavigatorUCS :=
  add_location (add_location emptyNavigator "A" "Alpha") "B" "Beta"

/-- A single highway whose toll is negative, giving the record the negative
cost `1 * 1 + (-100) / 10 = -9`; `add_highway` accepts it as-is. -/
def navNegative : PhilippineHighwayNavigatorUCS :=
  add_highway (add_location (add_location emptyNavigator "A" "Alpha") "B" "Beta")
    "A" "B" 1 1 (-100) "NegRoad"

/-- The identifier `N` is introduced only by `add_highway` and never
registered in `locations`. -/
def navUnregistered : PhilippineHighwayNavigatorUCS :=
  add_highway (add_location emptyNavigator "A" "Alpha") "A" "N" 5 1 0 "Rd"

/-! ### Association-list (Python dict) lemmas -/

theorem dictLookup_dictSet_self {α : Type} (m : List (String × α)) (k : String) (v : α) :
    dictLookup (dictSet m k v) k = some v := by
  induction m with
  | nil => simp [dictSet, dictLookup]
  | cons p rest ih =>
    obtain ⟨k1, v1⟩ := p
    by_cases h : k = k1
    · simp [dictSet, dictLookup, h]
    · simp [dictSet, dictLookup, h, ih]

theorem dictLookup_dictSet_ne {α : Type} (m : List (String × α)) {k x : String} (v : α)
    (hx : x ≠ k) : dictLookup (dictSet m k v) x = dictLookup m x := by
  induction m with
  | nil => simp [dictSet, dictLookup, hx]
  | cons p rest ih =>
    obtain ⟨k1, v1⟩ := p
    by_cases h : k = k1
    · subst h
      simp [dictSet, dictLookup, hx]
    · by_cases h2 : x = k1
      · simp [dictSet, dictLookup, h, h2]
      · simp [dictSet, dictLookup, h, h2, ih]

theorem dictLookup_append_of_none {α : Type} {m1 : List (String × α)} (m2 : List (String × α))
    {k : String} (h : dictLookup m1 k = none) :
    dictLookup (m1 ++ m2) k = dictLookup m2 k := by
  induction m1 with
  | nil => simp
  | cons p rest ih =>
    obtain ⟨k1, v1⟩ := p
    by_cases hk : k = k1
    · simp [dictLookup, hk] at h
    · simp only [dictLookup, hk, if_false, List.cons_append] at h ⊢
      exact ih h

theorem dictLookup_append_left {α : Type} {m1 : List (String × α)} (m2 : List (String × α))
    {k : String} {v : α} (h : dictLookup m1 k = some v) :
    dictLookup (m1 ++ m2) k = some v := by
  induction m1 with
  | nil => simp [dictLookup] at h
  | cons p rest ih =>
    obtain ⟨k1, v1⟩ := p
    by_cases hk : k = k1
    · simp only [dictLookup, hk, if_true, List.cons_append] at h ⊢
      exact h
    · simp only [dictLookup, hk, if_false, List.cons_append] at h ⊢
      exact ih h

theorem dictLookup_ensureKey_self (g : List (String × List Highway)) (k : String) :
    dictLookup (ensureKey g k) k = some ((dictLookup g k).getD []) := by
  unfold ensureKey
  cases h : dictLookup g k with
  | none => simp [h, dictLookup_append_of_none _ h, dictLookup]
  | some es => simp [h]

theorem dictLookup_ensureKey_ne (g : List (String × List Highway)) {k x : String}
    (hx : x ≠ k) : dictLookup (ensureKey g k) x = dictLookup g x := by
  unfold ensureKey
  cases h : dictLookup g x with
  | none =>
    split
    · exact h
    · rw [dictLookup_append_of_none _ h]
      simp [dictLookup, hx]
  | some es =>
    split
    · exact h
    · exact dictLookup_append_left _ h

theorem dictLookup_dictAppend_self {g : List (String × List Highway)} {k : String}
    {es : List Highway} (hk : dictLookup g k = some es) (h : Highway) :
    dictLookup (dictAppend g k h) k = some (es ++ [h]) := by
  induction g with
  | nil => simp [dictLookup] at hk
  | cons p rest ih =>
    obtain ⟨k1, es1⟩ := p
    by_cases hkk : k = k1
    · simp only [dictLookup, hkk, if_true, Option.some_inj] at hk
      subst hk
      simp [dictAppend, dictLookup, hkk]
    · simp only [dictLookup, hkk, if_false] at hk
      simp [dictAppend, dictLookup, hkk, ih hk]

theorem dictLookup_dictAppend_ne (g : List (String × List Highway)) {k x : String}
    (hx : x ≠ k) (h : Highway) :
    dictLookup (dictAppend g k h) x = dictLookup g x := by
  induction g with
  | nil => simp [dictAppend]
  | cons p rest ih =>
    obtain ⟨k1, es1⟩ := p
    by_cases hkk : k = k1
    · subst hkk
      simp [dictAppend, dictLookup, hx, ih]
    · by_cases hxk : x = k1
      · simp [dictAppend, dictLookup, hkk, hxk]
      · simp [dictAppend, dictLookup, hkk, hxk, ih]

/-! ### Frontier order lemmas -/

theorem Entry.le_key {a b : Entry} (h : a ≤ b) : a.key ≤ b.key := h

theorem Entry.cost_le_of_le {a b : Entry} (h : a ≤ b) : a.cost ≤ b.cost := by
  have h2 : a.key ≤ b.key := h
  rw [Entry.key, Entry.key, Prod.Lex.le_iff] at h2
  rcases h2 with h2 | ⟨h2, -⟩
  · exact le_of_lt h2
  · exact le_of_eq h2

theorem pushNeighbors_sorted (V : List (String × ℚ)) (cur : Entry) :
    ∀ (hs : List Highway) (q : List Entry), q.Sorted (· ≤ ·) →
      (pushNeighbors V cur hs q).Sorted (· ≤ ·)
  | [], q, hq => hq
  | h :: rest, q, hq => by
    rw [pushNeighbors]
    apply pushNeighbors_sorted
    split
    · exact hq.orderedInsert _ _
    · exact hq

theorem mem_pushNeighbors_of_mem (V : List (String × ℚ)) (cur : Entry) {x : Entry} :
    ∀ (hs : List Highway) (q : List Entry), x ∈ q → x ∈ pushNeighbors V cur hs q
  | [], q, hq => hq
  | h :: rest, q, hq => by
    rw [pushNeighbors]
    apply mem_pushNeighbors_of_mem
    split
    · exact (List.mem_orderedInsert _).mpr (Or.inr hq)
    · exact hq

theorem pushEntry_mem_pushNeighbors (V : List (String × ℚ)) (cur : Entry) {h : Highway} :
    ∀ (hs : List Highway) (q : List Entry), h ∈ hs →
      shouldPush V (cur.cost + h.cost) h.neighbor = true →
      pushEntry cur h ∈ pushNeighbors V cur hs q
  | [], _, hmem, _ => absurd hmem (List.not_mem_nil _)
  | h1 :: rest, q, hmem, hpush => by
    rcases List.mem_cons.mp hmem with heq | hmem2
    · subst heq
      rw [pushNeighbors, if_pos hpush]
      exact mem_pushNeighbors_of_mem V cur rest _
        ((List.mem_orderedInsert _).mpr (Or.inl rfl))
    · rw [pushNeighbors]
      exact pushEntry_mem_pushNeighbors V cur rest _ hmem2 hpush

theorem mem_pushNeighbors_elim (V : List (String × ℚ)) (cur : Entry) {x : Entry} :
    ∀ (hs : List Highway) (q : List Entry), x ∈ pushNeighbors V cur hs q →
      x ∈ q ∨ ∃ h ∈ hs, shouldPush V (cur.cost + h.cost) h.neighbor = true ∧
        x = pushEntry cur h
  | [], q, hx => Or.inl hx
  | h :: rest, q, hx => by
    rw [pushNeighbors] at hx
    rcases mem_pushNeighbors_elim V cur rest _ hx with hx2 | ⟨h2, hmem, hpush, hxe⟩
    · split at hx2
      · rcases (List.mem_orderedInsert _).mp hx2 with hxe | hx3
        · right
          exact ⟨h, List.mem_cons_self _ _, by assumption, hxe⟩
        · exact Or.inl hx3
      · exact Or.inl hx2
    · exact Or.inr ⟨h2, List.mem_cons_of_mem _ hmem, hpush, hxe⟩


/-! ### Path semantics over the adjacency structure -/

/-- Every adjacency record stored anywhere in the graph has non-negative
cost (the spec's non-negative edge-cost contract). -/
def NonnegGraph (G : List (String × List Highway)) : Prop :=
  ∀ p ∈ G, ∀ h ∈ p.2, 0 ≤ h.cost

instance (G : List (String × List Highway)) : Decidable (NonnegGraph G) :=
  inferInstanceAs (Decidable (∀ p ∈ G, ∀ h ∈ p.2, 0 ≤ h.cost))

theorem dictLookup_mem {α : Type} {m : List (String × α)} {k : String} {v : α}
    (h : dictLookup m k = some v) : (k, v) ∈ m := by
  induction m with
  | nil => simp [dictLookup] at h
  | cons p rest ih =>
    obtain ⟨k1, v1⟩ := p
    by_cases hk : k = k1
    · simp only [dictLookup, hk, if_true, Option.some_inj] at h
      subst hk
      subst h
      exact List.mem_cons_self _ _
    · simp only [dictLookup, hk, if_false] at h
      exact List.mem_cons_of_mem _ (ih h)

theorem NonnegGraph.edge {G : List (String × List Highway)} (hG : NonnegGraph G)
    {u : String} {h : Highway} (hmem : h ∈ edgesOf G u) : 0 ≤ h.cost := by
  unfold edgesOf at hmem
  cases hl : dictLookup G u with
  | none => simp [hl] at hmem
  | some es =>
    rw [hl] at hmem
    exact hG (u, es) (dictLookup_mem hl) h hmem

/-- `WalkP G u l v c`: a walk through the adjacency records from `u` to `v`;
`l` lists the nodes visited after `u` and `c` is the sum of the traversed
records' cost fields. -/
inductive WalkP (G : List (String × List Highway)) : String → List String → String → ℚ → Prop
  | nil (u : String) : WalkP G u [] u 0
  | cons {u v : String} {l : List String} {c : ℚ} (h : Highway)
      (hmem : h ∈ edgesOf G u) (tail : WalkP G h.neighbor l v c) :
      WalkP G u (h.neighbor :: l) v (h.cost + c)

theorem WalkP.nonneg {G : List (String × List Highway)} {u : String} {l : List String}
    {v : String} {c : ℚ} (hG : NonnegGraph G) (w : WalkP G u l v c) : 0 ≤ c := by
  induction w with
  | nil => exact le_rfl
  | cons h hmem tail ih => exact add_nonneg (hG.edge hmem) ih

theorem WalkP.snoc {G : List (String × List Highway)} {u : String} {l : List String}
    {v : String} {c : ℚ} (w : WalkP G u l v c) :
    ∀ {h : Highway}, h ∈ edgesOf G v →
      WalkP G u (l ++ [h.neighbor]) h.neighbor (c + h.cost) := by
  induction w with
  | nil u =>
    intro h hmem
    simpa using WalkP.cons h hmem (WalkP.nil h.neighbor)
  | cons h1 hm1 tl ih =>
    intro h hmem
    have h2 := WalkP.cons h1 hm1 (ih hmem)
    simpa [add_assoc] using h2

theorem WalkP.extract {G : List (String × List Highway)} {m : String} {l : List String}
    {v : String} {c : ℚ} (hG : NonnegGraph G) (w : WalkP G m l v c) :
    ∀ u ∈ l, ∃ t ct, (u :: t) <:+ l ∧ WalkP G u t v ct ∧ ct ≤ c := by
  induction w with
  | nil => intro u hu; simp at hu
  | cons h hmem tail ih =>
    intro u hu
    rcases List.mem_cons.mp hu with heq | hmem2
    · subst heq
      exact ⟨_, _, List.suffix_refl _, tail, le_add_of_nonneg_left (hG.edge hmem)⟩
    · obtain ⟨t, ct, hsuf, wt, hct⟩ := ih u hmem2
      exact ⟨t, ct, hsuf.trans (List.suffix_cons _ _), wt,
        hct.trans (le_add_of_nonneg_left (hG.edge hmem))⟩

/-- Cycle removal: with non-negative costs, every walk admits a node-disjoint
(simple) walk between the same endpoints of no greater cost. -/
theorem WalkP.exists_simple {G : List (String × List Highway)} {u : String}
    {l : List String} {v : String} {c : ℚ} (hG : NonnegGraph G) (w : WalkP G u l v c) :
    ∃ l2 c2, WalkP G u l2 v c2 ∧ (u :: l2).Nodup ∧ c2 ≤ c := by
  induction w with
  | nil u => exact ⟨[], 0, WalkP.nil u, by simp, le_rfl⟩
  | @cons u1 v1 l1 c1 h hmem tail ih =>
    obtain ⟨l2, c2, w2, hnd, hle⟩ := ih
    by_cases hu : u1 ∈ h.neighbor :: l2
    · rcases List.mem_cons.mp hu with heq | hmem2
      · refine ⟨l2, c2, ?_, ?_, ?_⟩
        · rw [heq]; exact w2
        · rw [heq]; exact hnd
        · exact hle.trans (le_add_of_nonneg_left (hG.edge hmem))
      · obtain ⟨t, ct, hsuf, wt, hct⟩ := w2.extract hG u1 hmem2
        refine ⟨t, ct, wt, hsuf.sublist.nodup (List.Nodup.of_cons hnd), ?_⟩
        exact (hct.trans hle).trans (le_add_of_nonneg_left (hG.edge hmem))
    · exact ⟨h.neighbor :: l2, h.cost + c2, WalkP.cons h hmem w2,
        List.nodup_cons.mpr ⟨hu, hnd⟩, add_le_add_left hle _⟩


/-! ### The Dijkstra invariant and optimality of the first goal extraction -/

/-- `(pushEntry cur h).location` computes. -/
theorem pushEntry_location (cur : Entry) (h : Highway) :
    (pushEntry cur h).location = h.neighbor := rfl

/-- `(pushEntry cur h).cost` computes. -/
theorem pushEntry_cost (cur : Entry) (h : Highway) :
    (pushEntry cur h).cost = cur.cost + h.cost := rfl

/-- Node `m` is covered at bound `x`: either finalized at a value `≤ x`, or
the frontier holds an entry for `m` of cost `≤ x`. -/
def Covered (Q : List Entry) (V : List (String × ℚ)) (m : String) (x : ℚ) : Prop :=
  (∃ v, dictLookup V m = some v ∧ v ≤ x) ∨ ∃ e ∈ Q, e.location = m ∧ e.cost ≤ x

/-- The state invariant of the UCS loop: every frontier entry's cost is the
cost of an actual walk from `start`; every edge out of a finalized node is
covered; and `start` itself is covered at bound `0`. -/
structure DInv (G : List (String × List Highway)) (start : String)
    (Q : List Entry) (V : List (String × ℚ)) : Prop where
  qWalk : ∀ e ∈ Q, ∃ l, WalkP G start l e.location e.cost
  relaxed : ∀ n v, dictLookup V n = some v → ∀ h ∈ edgesOf G n,
    Covered Q V h.neighbor (v + h.cost)
  startCov : Covered Q V start 0

theorem isStale_true_elim {V : List (String × ℚ)} {e : Entry}
    (h : isStale V e = true) :
    ∃ v, dictLookup V e.location = some v ∧ v ≤ e.cost := by
  unfold isStale at h
  cases hl : dictLookup V e.location with
  | none => rw [hl] at h; simp at h
  | some v => rw [hl] at h; simp at h; exact ⟨v, rfl, h⟩

theorem isStale_false_elim {V : List (String × ℚ)} {e : Entry}
    (h : isStale V e = false) :
    dictLookup V e.location = none ∨
      ∃ v, dictLookup V e.location = some v ∧ e.cost < v := by
  unfold isStale at h
  cases hl : dictLookup V e.location with
  | none => exact Or.inl rfl
  | some v =>
    rw [hl] at h
    simp at h
    exact Or.inr ⟨v, rfl, h⟩

theorem shouldPush_false_elim {V : List (String × ℚ)} {nc : ℚ} {m : String}
    (h : shouldPush V nc m = false) :
    ∃ v, dictLookup V m = some v ∧ v ≤ nc := by
  unfold shouldPush at h
  cases hl : dictLookup V m with
  | none => rw [hl] at h; simp at h
  | some v => rw [hl] at h; simp at h; exact ⟨v, rfl, h⟩

theorem Covered.of_stale {e : Entry} {rest : List Entry} {V : List (String × ℚ)}
    {m : String} {x : ℚ} (hst : isStale V e = true)
    (hc : Covered (e :: rest) V m x) : Covered rest V m x := by
  rcases hc with hv | ⟨e2, he2, hloc, hcost⟩
  · exact Or.inl hv
  · rcases List.mem_cons.mp he2 with rfl | hmem
    · obtain ⟨v, hv, hvc⟩ := isStale_true_elim hst
      rw [hloc] at hv
      exact Or.inl ⟨v, hv, hvc.trans hcost⟩
    · exact Or.inr ⟨e2, hmem, hloc, hcost⟩

theorem Covered.of_settle {e : Entry} {rest Q2 : List Entry}
    {V : List (String × ℚ)} {m : String} {x : ℚ}
    (hns : isStale V e = false) (hsub : ∀ y ∈ rest, y ∈ Q2)
    (hc : Covered (e :: rest) V m x) :
    Covered Q2 (dictSet V e.location e.cost) m x := by
  rcases hc with ⟨v, hv, hvx⟩ | ⟨e2, he2, hloc, hcost⟩
  · by_cases hm : m = e.location
    · subst hm
      rcases isStale_false_elim hns with hnone | ⟨v2, hv2, hlt⟩
      · rw [hv] at hnone; exact absurd hnone (Option.some_ne_none v)
      · rw [hv] at hv2
        injection hv2 with hveq
        subst hveq
        exact Or.inl ⟨e.cost, dictLookup_dictSet_self _ _ _, (le_of_lt hlt).trans hvx⟩
    · exact Or.inl ⟨v, (dictLookup_dictSet_ne _ _ hm).trans hv, hvx⟩
  · rcases List.mem_cons.mp he2 with rfl | hmem
    · rw [← hloc]
      exact Or.inl ⟨e2.cost, dictLookup_dictSet_self _ _ _, hcost⟩
    · exact Or.inr ⟨e2, hsub _ hmem, hloc, hcost⟩

/-- The key bound: when the head `e` of the (sorted) frontier is popped and is
not stale, its cost is below `p + w` for every covered starting bound `p` and
every walk of cost `w` from the covered node to `e.location`. -/
theorem covered_bound {G : List (String × List Highway)} {e : Entry}
    {rest : List Entry} {V : List (String × ℚ)} (hG : NonnegGraph G)
    (hmin : ∀ y ∈ rest, e.cost ≤ y.cost) (hns : isStale V e = false)
    (hrel : ∀ n v, dictLookup V n = some v → ∀ h ∈ edgesOf G n,
      Covered (e :: rest) V h.neighbor (v + h.cost)) :
    ∀ {z : String} {l : List String} {w : ℚ}, WalkP G z l e.location w →
      ∀ p : ℚ, Covered (e :: rest) V z p → e.cost ≤ p + w := by
  suffices key : ∀ {z : String} {l : List String} {z2 : String} {w : ℚ},
      WalkP G z l z2 w → z2 = e.location →
      ∀ p : ℚ, Covered (e :: rest) V z p → e.cost ≤ p + w by
    intro z l w hw
    exact key hw rfl
  intro z l z2 w hw
  induction hw with
  | nil u =>
    intro hend p hc
    subst hend
    rcases hc with ⟨v, hv, hvp⟩ | ⟨e2, he2, hloc, hcost⟩
    · rcases isStale_false_elim hns with hnone | ⟨v2, hv2, hlt⟩
      · rw [hv] at hnone; exact absurd hnone (Option.some_ne_none v)
      · rw [hv] at hv2
        injection hv2 with hveq
        subst hveq
        have : e.cost ≤ p := (le_of_lt hlt).trans hvp
        linarith
    · rcases List.mem_cons.mp he2 with rfl | hmem
      · linarith
      · have := hmin e2 hmem
        linarith
  | @cons u1 v1 l1 c1 h hmem tail ih =>
    intro hend p hc
    rcases hc with ⟨v, hv, hvp⟩ | ⟨e2, he2, hloc, hcost⟩
    · have hcov := hrel _ _ hv h hmem
      have hb := ih hend (v + h.cost) hcov
      linarith
    · have h1 : 0 ≤ h.cost := hG.edge hmem
      have h2 : 0 ≤ c1 := tail.nonneg hG
      rcases List.mem_cons.mp he2 with rfl | hmem2
      · linarith
      · have := hmin e2 hmem2
        linarith

theorem DInv.skip {G : List (String × List Highway)} {start : String} {e : Entry}
    {rest : List Entry} {V : List (String × ℚ)}
    (inv : DInv G start (e :: rest) V) (hst : isStale V e = true) :
    DInv G start rest V where
  qWalk x hx := inv.qWalk x (List.mem_cons_of_mem _ hx)
  relaxed n v hv h hmem := (inv.relaxed n v hv h hmem).of_stale hst
  startCov := inv.startCov.of_stale hst

theorem DInv.settle {G : List (String × List Highway)} {start : String} {e : Entry}
    {rest : List Entry} {V : List (String × ℚ)}
    (inv : DInv G start (e :: rest) V) (hns : isStale V e = false) :
    DInv G start
      (pushNeighbors (dictSet V e.location e.cost) e (edgesOf G e.location) rest)
      (dictSet V e.location e.cost) := by
  have hsub : ∀ y ∈ rest, y ∈
      pushNeighbors (dictSet V e.location e.cost) e (edgesOf G e.location) rest :=
    fun y hy => mem_pushNeighbors_of_mem _ _ _ _ hy
  refine ⟨?_, ?_, ?_⟩
  · intro x hx
    rcases mem_pushNeighbors_elim _ _ _ _ hx with hx2 | ⟨h, hmem, hpush, rfl⟩
    · exact inv.qWalk x (List.mem_cons_of_mem _ hx2)
    · obtain ⟨l, wl⟩ := inv.qWalk e (List.mem_cons_self _ _)
      exact ⟨l ++ [h.neighbor], wl.snoc hmem⟩
  · intro n v hv h2 hmem2
    by_cases hn : n = e.location
    · subst hn
      rw [dictLookup_dictSet_self] at hv
      injection hv with hveq
      subst hveq
      cases hp : shouldPush (dictSet V e.location e.cost) (e.cost + h2.cost) h2.neighbor with
      | false =>
        obtain ⟨vb, hvb, hvbc⟩ := shouldPush_false_elim hp
        exact Or.inl ⟨vb, hvb, hvbc⟩
      | true =>
        exact Or.inr ⟨pushEntry e h2,
          pushEntry_mem_pushNeighbors _ _ _ _ hmem2 hp, rfl, le_refl _⟩
    · rw [dictLookup_dictSet_ne _ _ hn] at hv
      exact (inv.relaxed n v hv h2 hmem2).of_settle hns hsub
  · exact inv.startCov.of_settle hns hsub

theorem DInv.initial_state (G : List (String × List Highway)) (start : String) :
    DInv G start [⟨0, start, [startWaypoint start]⟩] [] := by
  refine ⟨?_, ?_, ?_⟩
  · intro e he
    rw [List.mem_singleton] at he
    subst he
    exact ⟨[], WalkP.nil start⟩
  · intro n v hv
    simp [dictLookup] at hv
  · exact Or.inr ⟨_, List.mem_singleton_self _, rfl, le_refl _⟩

/-- Optimality of the returned total cost, as an invariant of the fueled
loop: any success result's cost is both attained by a walk from `start` to
`goal` and a lower bound on every such walk's cost. -/
theorem ucsLoop_found_le {G : List (String × List Highway)} {start goal : String}
    (hG : NonnegGraph G) :
    ∀ (fuel : Nat) (Q : List Entry) (V : List (String × ℚ)),
      Q.Sorted (· ≤ ·) → DInv G start Q V →
      ∀ {L : List Waypoint} {c d t : ℚ},
        ucsLoop G goal fuel Q V = some (.found L c d t) →
        (∃ l, WalkP G start l goal c) ∧ ∀ l w, WalkP G start l goal w → c ≤ w := by
  intro fuel
  induction fuel with
  | zero =>
    intro Q V _ _ L c d t h
    simp [ucsLoop] at h
  | succ fuel ih =>
    intro Q V hs inv L c d t hrun
    cases Q with
    | nil => simp [ucsLoop] at hrun
    | cons e rest =>
      rw [ucsLoop] at hrun
      by_cases hst : isStale V e = true
      · rw [if_pos hst] at hrun
        exact ih rest V hs.of_cons (inv.skip hst) hrun
      · have hst2 : isStale V e = false := by simpa using hst
        rw [hst2] at hrun
        simp only [Bool.false_eq_true, if_false] at hrun
        by_cases hgoal : e.location = goal
        · rw [if_pos hgoal] at hrun
          simp only [Option.some_inj, SearchResult.found.injEq] at hrun
          obtain ⟨rfl, rfl, rfl, rfl⟩ := hrun
          constructor
          · obtain ⟨l, wl⟩ := inv.qWalk e (List.mem_cons_self _ _)
            exact ⟨l, hgoal ▸ wl⟩
          · intro l w hw
            have hmin : ∀ y ∈ rest, e.cost ≤ y.cost := fun y hy =>
              Entry.cost_le_of_le ((List.sorted_cons.mp hs).1 y hy)
            have hb := covered_bound hG hmin hst2 inv.relaxed
              (hgoal ▸ hw) 0 inv.startCov
            linarith
        · rw [if_neg hgoal] at hrun
          exact ih _ _ (pushNeighbors_sorted _ _ _ _ hs.of_cons)
            (inv.settle hst2) hrun


/-! ### Claims C1 and C2 -/

/-- C1: for every graph whose adjacency records all carry a non-negative
cost, whenever `ucs_search start goal` returns a success result, the returned
`total_cost` is the least element of the set of costs of simple paths
(node-disjoint walks) from `start` to `goal` in the graph. -/
theorem ucs_search_total_cost_optimal
    (nav : PhilippineHighwayNavigatorUCS) (start goal : String) (fuel : Nat)
    (hG : NonnegGraph nav.graph) (L : List Waypoint) (c d t : ℚ)
    (hrun : ucs_search nav start goal fuel = some (.found L c d t)) :
    IsLeast {w : ℚ | ∃ l, WalkP nav.graph start l goal w ∧ (start :: l).Nodup} c := by
  unfold ucs_search at hrun
  split at hrun
  · simp at hrun
  · have h := ucsLoop_found_le hG fuel _ _ (List.sorted_singleton _)
      (DInv.initial_state _ _) hrun
    obtain ⟨⟨l, wl⟩, hlb⟩ := h
    obtain ⟨l2, c2, w2, hnd, hle⟩ := wl.exists_simple hG
    have hge : c ≤ c2 := hlb l2 c2 w2
    constructor
    · exact ⟨l2, le_antisymm hle hge ▸ w2, hnd⟩
    · rintro w ⟨l3, w3, hnd3⟩
      exact hlb l3 w w3

/-- Witness for C1: on the concrete three-node scenario the hypotheses hold
and the returned total cost `192` is the least simple-path cost from `A`
to `C`. -/
theorem ucs_search_total_cost_optimal_witness :
    IsLeast {w : ℚ | ∃ l, WalkP scenarioABC.graph "A" l "C" w ∧ ("A" :: l).Nodup}
      192 :=
  ucs_search_total_cost_optimal scenarioABC "A" "C" 10
    (by with_unfolding_all decide)
    [⟨"A", 0, 0, 0, "Starting Point"⟩, ⟨"B", 122, 80, 180, "AB"⟩,
      ⟨"C", 192, 135, 275, "BC"⟩] 192 135 275
    (by with_unfolding_all rfl)

/-- C2 counterexample: on the spec's concrete scenario the B–C record costs
`55 * 1.1 + 95 / 10 = 70` (not `69.5`), and the search returns total cost
`192` (not `191.5`): the concrete run differs from the claimed value. -/
theorem scenarioABC_total_cost_ne_claimed :
    ucs_search scenarioABC "A" "C" 10 =
      some (.found [⟨"A", 0, 0, 0, "Starting Point"⟩, ⟨"B", 122, 80, 180, "AB"⟩,
        ⟨"C", 192, 135, 275, "BC"⟩] 192 135 275) ∧
    dictLookup scenarioABC.graph "B" =
      some [⟨"A", 122, 80, 1.3, 180, "AB"⟩, ⟨"C", 70, 55, 1.1, 95, "BC"⟩] ∧
    (192 : ℚ) ≠ 191.5 := by
  refine ⟨?_, ?_, ?_⟩
  · with_unfolding_all rfl
  · with_unfolding_all rfl
  · norm_num

/-- C2 (amended): on the concrete three-node scenario, `ucs_search A C`
returns the path `A, B, C` with total cost exactly `192` (edge costs
`122 = 80 * 1.3 + 18` and `70 = 55 * 1.1 + 9.5`, beating the direct edge of
cost `200`), total distance `135` and total toll `275`. -/
theorem scenarioABC_search_eq :
    ucs_search scenarioABC "A" "C" 10 =
      some (.found [⟨"A", 0, 0, 0, "Starting Point"⟩, ⟨"B", 122, 80, 180, "AB"⟩,
        ⟨"C", 192, 135, 275, "BC"⟩] 192 135 275) := by
  with_unfolding_all rfl


/-! ### Structural ledger invariants (claims C10 and C5) -/

theorem getLast?_eq_lastWaypoint {L : List Waypoint} (h : L ≠ []) :
    L.getLast? = some (lastWaypoint L) := by
  cases hl : L.getLast? with
  | none => exact absurd (List.getLast?_eq_none_iff.mp hl) h
  | some w => simp [lastWaypoint, hl]

theorem GoodEntry.path_ne_nil {G : List (String × List Highway)} {start : String}
    {e : Entry} (ge : GoodEntry G start e) : e.path_info ≠ [] := by
  intro heq
  have := ge.head
  rw [heq] at this
  simp at this

theorem GoodEntry.push {G : List (String × List Highway)} {start : String}
    {e : Entry} (ge : GoodEntry G start e) {h : Highway}
    (hmem : h ∈ edgesOf G e.location) : GoodEntry G start (pushEntry e h) := by
  have hne := ge.path_ne_nil
  have hlast := getLast?_eq_lastWaypoint hne
  constructor
  · show (e.path_info ++ [_]).head? = _
    rw [List.head?_append_of_ne_nil _ hne]
    exact ge.head
  · show (lastWaypoint (e.path_info ++ [_])).location = _
    rw [lastWaypoint, List.getLast?_concat]
    rfl
  · show (lastWaypoint (e.path_info ++ [_])).cumulative_cost = _
    rw [lastWaypoint, List.getLast?_concat]
    rfl
  · show List.Chain' (LedgerStep G) (e.path_info ++ [_])
    rw [List.chain'_append]
    refine ⟨ge.chain, List.chain'_singleton _, ?_⟩
    intro x hx y hy
    rw [hlast, Option.mem_def, Option.some_inj] at hx
    simp only [List.head?_cons, Option.mem_def, Option.some_inj] at hy
    subst hx
    subst hy
    refine ⟨h, ?_, rfl, ?_, rfl, rfl, rfl⟩
    · rw [ge.lastLoc]
      exact hmem
    · show e.cost + h.cost = _ + h.cost
      rw [ge.lastCost]

theorem GoodEntry.initial_entry (G : List (String × List Highway)) (start : String) :
    GoodEntry G start ⟨0, start, [startWaypoint start]⟩ := by
  refine ⟨rfl, ?_, ?_, List.chain'_singleton _⟩
  · simp [lastWaypoint, startWaypoint]
  · simp [lastWaypoint, startWaypoint]

/-- Structure of any success result of the fueled loop, given the entry
invariant on the frontier. -/
theorem ucsLoop_found_good {G : List (String × List Highway)} {start goal : String} :
    ∀ (fuel : Nat) (Q : List Entry) (V : List (String × ℚ)),
      (∀ e ∈ Q, GoodEntry G start e) →
      ∀ {L : List Waypoint} {c d t : ℚ},
        ucsLoop G goal fuel Q V = some (.found L c d t) →
        L.head? = some (startWaypoint start) ∧
        List.Chain' (LedgerStep G) L ∧
        L.getLast? = some (lastWaypoint L) ∧
        (lastWaypoint L).location = goal ∧
        (lastWaypoint L).cumulative_cost = c ∧
        (lastWaypoint L).cumulative_distance = d ∧
        (lastWaypoint L).cumulative_toll = t := by
  intro fuel
  induction fuel with
  | zero =>
    intro Q V _ L c d t h
    simp [ucsLoop] at h
  | succ fuel ih =>
    intro Q V hQ L c d t hrun
    cases Q with
    | nil => simp [ucsLoop] at hrun
    | cons e rest =>
      rw [ucsLoop] at hrun
      by_cases hst : isStale V e = true
      · rw [if_pos hst] at hrun
        exact ih rest V (fun x hx => hQ x (List.mem_cons_of_mem _ hx)) hrun
      · have hst2 : isStale V e = false := by simpa using hst
        rw [hst2] at hrun
        simp only [Bool.false_eq_true, if_false] at hrun
        by_cases hgoal : e.location = goal
        · rw [if_pos hgoal] at hrun
          simp only [Option.some_inj, SearchResult.found.injEq] at hrun
          obtain ⟨rfl, rfl, rfl, rfl⟩ := hrun
          have ge := hQ e (List.mem_cons_self _ _)
          exact ⟨ge.head, ge.chain, getLast?_eq_lastWaypoint ge.path_ne_nil,
            ge.lastLoc.trans hgoal, ge.lastCost, rfl, rfl⟩
        · rw [if_neg hgoal] at hrun
          refine ih _ _ ?_ hrun
          intro x hx
          rcases mem_pushNeighbors_elim _ _ _ _ hx with hx2 | ⟨h, hmem, hpush, rfl⟩
          · exact hQ x (List.mem_cons_of_mem _ hx2)
          · exact (hQ e (List.mem_cons_self _ _)).push hmem

/-- C10: every success result of `ucs_search` has a ledger that begins with
the start waypoint `(start, 0, 0, 0, "Starting Point")`, whose consecutive
waypoints are linked by adjacency records of the earlier node, whose final
waypoint sits at `goal`, and whose final cumulative fields are exactly the
returned `total_cost`, `total_distance` and `total_toll`. -/
theorem ucs_search_found_ledger_structure
    (nav : PhilippineHighwayNavigatorUCS) (start goal : String) (fuel : Nat)
    (L : List Waypoint) (c d t : ℚ)
    (hrun : ucs_search nav start goal fuel = some (.found L c d t)) :
    L.head? = some (startWaypoint start) ∧
    List.Chain' (LedgerStep nav.graph) L ∧
    ∃ wlast, L.getLast? = some wlast ∧ wlast.location = goal ∧
      wlast.cumulative_cost = c ∧ wlast.cumulative_distance = d ∧
      wlast.cumulative_toll = t := by
  unfold ucs_search at hrun
  split at hrun
  · simp at hrun
  · obtain ⟨h1, h2, h3, h4, h5, h6, h7⟩ := ucsLoop_found_good fuel _ _
      (by
        intro e he
        rw [List.mem_singleton] at he
        subst he
        exact GoodEntry.initial_entry _ _) hrun
    exact ⟨h1, h2, lastWaypoint L, h3, h4, h5, h6, h7⟩

/-- Witness for C10: the structure facts hold for the concrete three-node
run. -/
theorem ucs_search_found_ledger_structure_witness :
    ([⟨"A", 0, 0, 0, "Starting Point"⟩, ⟨"B", 122, 80, 180, "AB"⟩,
        ⟨"C", 192, 135, 275, "BC"⟩] : List Waypoint).head?
      = some (startWaypoint "A") ∧
    List.Chain' (LedgerStep scenarioABC.graph)
      [⟨"A", 0, 0, 0, "Starting Point"⟩, ⟨"B", 122, 80, 180, "AB"⟩,
        ⟨"C", 192, 135, 275, "BC"⟩] ∧
    ∃ wlast, ([⟨"A", 0, 0, 0, "Starting Point"⟩, ⟨"B", 122, 80, 180, "AB"⟩,
        ⟨"C", 192, 135, 275, "BC"⟩] : List Waypoint).getLast? = some wlast ∧
      wlast.location = "C" ∧ wlast.cumulative_cost = 192 ∧
      wlast.cumulative_distance = 135 ∧ wlast.cumulative_toll = 275 :=
  ucs_search_found_ledger_structure scenarioABC "A" "C" 10 _ 192 135 275
    (by with_unfolding_all rfl)


/-- Prefix-sum extraction from a ledger chain: the waypoints' cumulative
fields are the start waypoint's fields plus the prefix sums of the linking
records' per-edge fields. -/
theorem chain'_prefixSums {G : List (String × List Highway)} :
    ∀ {L : List Waypoint} {w0 : Waypoint}, List.Chain' (LedgerStep G) (w0 :: L) →
      ∃ rs : List Highway, rs.length = L.length ∧
        (∀ i, i < rs.length →
          recAt rs i ∈ edgesOf G (wpAt (w0 :: L) i).location ∧
          (recAt rs i).neighbor = (wpAt (w0 :: L) (i + 1)).location) ∧
        ∀ k, k < L.length + 1 →
          (wpAt (w0 :: L) k).cumulative_distance =
            w0.cumulative_distance + ((rs.take k).map Highway.distance_km).sum ∧
          (wpAt (w0 :: L) k).cumulative_toll =
            w0.cumulative_toll + ((rs.take k).map Highway.toll_php).sum ∧
          (wpAt (w0 :: L) k).cumulative_cost =
            w0.cumulative_cost + ((rs.take k).map Highway.cost).sum := by
  intro L
  induction L with
  | nil =>
    intro w0 _
    refine ⟨[], rfl, by simp, ?_⟩
    intro k hk
    simp only [List.length_nil] at hk
    have hk0 : k = 0 := by omega
    subst hk0
    simp [wpAt]
  | cons w1 L2 ih =>
    intro w0 hch
    rw [List.chain'_cons] at hch
    obtain ⟨⟨h, hmem, hnb, hc, hd, ht, hhw⟩, hch2⟩ := hch
    obtain ⟨rs2, hlen, hsteps, hsums⟩ := ih hch2
    refine ⟨h :: rs2, by simp [hlen], ?_, ?_⟩
    · intro i hi
      cases i with
      | zero =>
        constructor
        · simpa [recAt, wpAt] using hmem
        · simpa [recAt, wpAt] using hnb
      | succ j =>
        have hj : j < rs2.length := by simpa using hi
        obtain ⟨hs1, hs2⟩ := hsteps j hj
        constructor
        · simpa [recAt, wpAt] using hs1
        · simpa [recAt, wpAt] using hs2
    · intro k hk
      cases k with
      | zero => simp [wpAt]
      | succ j =>
        have hj : j < L2.length + 1 := by simpa using hk
        obtain ⟨hd2, ht2, hc2⟩ := hsums j hj
        have e1 : wpAt (w0 :: w1 :: L2) (j + 1) = wpAt (w1 :: L2) j := rfl
        refine ⟨?_, ?_, ?_⟩
        · rw [e1, hd2, hd, List.take_succ_cons]
          simp [add_assoc]
        · rw [e1, ht2, ht, List.take_succ_cons]
          simp [add_assoc]
        · rw [e1, hc2, hc, List.take_succ_cons]
          simp [add_assoc]

/-- C5 (amended): for every successful run, the ledger is traced by a list
of adjacency records whose per-edge distance/toll/cost prefix sums are
exactly the waypoints' cumulative fields; and, provided all edge costs in
the graph are non-negative, the cumulative_cost sequence is monotonically
non-decreasing along the ledger. -/
theorem ucs_search_ledger_prefix_sums
    (nav : PhilippineHighwayNavigatorUCS) (start goal : String) (fuel : Nat)
    (L : List Waypoint) (c d t : ℚ)
    (hrun : ucs_search nav start goal fuel = some (.found L c d t)) :
    (∃ rs : List Highway, rs.length + 1 = L.length ∧
      (∀ i, i < rs.length →
        recAt rs i ∈ edgesOf nav.graph (wpAt L i).location ∧
        (recAt rs i).neighbor = (wpAt L (i + 1)).location) ∧
      ∀ k, k < L.length →
        (wpAt L k).cumulative_distance = ((rs.take k).map Highway.distance_km).sum ∧
        (wpAt L k).cumulative_toll = ((rs.take k).map Highway.toll_php).sum ∧
        (wpAt L k).cumulative_cost = ((rs.take k).map Highway.cost).sum) ∧
    (NonnegGraph nav.graph → ∀ i j, i ≤ j → j < L.length →
      (wpAt L i).cumulative_cost ≤ (wpAt L j).cumulative_cost) := by
  obtain ⟨hhead, hchain, -⟩ :=
    ucs_search_found_ledger_structure nav start goal fuel L c d t hrun
  cases L with
  | nil => simp at hhead
  | cons w0 L2 =>
    simp only [List.head?_cons, Option.some_inj] at hhead
    subst hhead
    obtain ⟨rs, hlen, hsteps, hsums⟩ := chain'_prefixSums hchain
    have hsums2 : ∀ k, k < L2.length + 1 →
        (wpAt (startWaypoint start :: L2) k).cumulative_distance =
          ((rs.take k).map Highway.distance_km).sum ∧
        (wpAt (startWaypoint start :: L2) k).cumulative_toll =
          ((rs.take k).map Highway.toll_php).sum ∧
        (wpAt (startWaypoint start :: L2) k).cumulative_cost =
          ((rs.take k).map Highway.cost).sum := by
      intro k hk
      obtain ⟨h1, h2, h3⟩ := hsums k hk
      refine ⟨?_, ?_, ?_⟩
      · rw [h1]; show (0 : ℚ) + _ = _; rw [zero_add]
      · rw [h2]; show (0 : ℚ) + _ = _; rw [zero_add]
      · rw [h3]; show (0 : ℚ) + _ = _; rw [zero_add]
    constructor
    · exact ⟨rs, by simp [hlen], hsteps, by simpa using hsums2⟩
    · intro hG i j hij hj
      have hnn : ∀ x ∈ rs, 0 ≤ x.cost := by
        intro x hx
        obtain ⟨n, hget⟩ := List.mem_iff_get.mp hx
        have hrec : recAt rs n.1 = x := by
          rw [recAt, List.getD_eq_getElem _ _ n.2, ← List.get_eq_getElem, hget]
        exact hrec ▸ hG.edge (hsteps n.1 n.2).1
      have hjlen : j < L2.length + 1 := by simpa using hj
      have hilen : i < L2.length + 1 := lt_of_le_of_lt hij hjlen
      have hci := (hsums2 i hilen).2.2
      have hcj := (hsums2 j hjlen).2.2
      rw [show wpAt (startWaypoint start :: L2) i = wpAt (_ :: L2) i from rfl] at hci
      have hsplit : rs.take j = rs.take i ++ (rs.drop i).take (j - i) := by
        have hj2 : i + (j - i) = j := by omega
        conv_lhs => rw [← hj2]
        rw [List.take_add]
      rw [hci, hcj, hsplit, List.map_append, List.sum_append]
      have : 0 ≤ (((rs.drop i).take (j - i)).map Highway.cost).sum := by
        apply List.sum_nonneg
        intro x hx
        obtain ⟨r, hr, rfl⟩ := List.mem_map.mp hx
        exact hnn r (List.mem_of_mem_drop (List.mem_of_mem_take hr))
      linarith

/-- Witness for C5 (amended): instantiated on the concrete three-node run. -/
theorem ucs_search_ledger_prefix_sums_witness :
    (∃ rs : List Highway, rs.length + 1 =
        ([⟨"A", 0, 0, 0, "Starting Point"⟩, ⟨"B", 122, 80, 180, "AB"⟩,
          ⟨"C", 192, 135, 275, "BC"⟩] : List Waypoint).length ∧
      (∀ i, i < rs.length →
        recAt rs i ∈ edgesOf scenarioABC.graph
          (wpAt [⟨"A", 0, 0, 0, "Starting Point"⟩, ⟨"B", 122, 80, 180, "AB"⟩,
            ⟨"C", 192, 135, 275, "BC"⟩] i).location ∧
        (recAt rs i).neighbor = (wpAt [⟨"A", 0, 0, 0, "Starting Point"⟩,
          ⟨"B", 122, 80, 180, "AB"⟩, ⟨"C", 192, 135, 275, "BC"⟩] (i + 1)).location) ∧
      ∀ k, k < ([⟨"A", 0, 0, 0, "Starting Point"⟩, ⟨"B", 122, 80, 180, "AB"⟩,
          ⟨"C", 192, 135, 275, "BC"⟩] : List Waypoint).length →
        (wpAt [⟨"A", 0, 0, 0, "Starting Point"⟩, ⟨"B", 122, 80, 180, "AB"⟩,
          ⟨"C", 192, 135, 275, "BC"⟩] k).cumulative_distance =
          ((rs.take k).map Highway.distance_km).sum ∧
        (wpAt [⟨"A", 0, 0, 0, "Starting Point"⟩, ⟨"B", 122, 80, 180, "AB"⟩,
          ⟨"C", 192, 135, 275, "BC"⟩] k).cumulative_toll =
          ((rs.take k).map Highway.toll_php).sum ∧
        (wpAt [⟨"A", 0, 0, 0, "Starting Point"⟩, ⟨"B", 122, 80, 180, "AB"⟩,
          ⟨"C", 192, 135, 275, "BC"⟩] k).cumulative_cost =
          ((rs.take k).map Highway.cost).sum) ∧
    (NonnegGraph scenarioABC.graph → ∀ i j, i ≤ j →
      j < ([⟨"A", 0, 0, 0, "Starting Point"⟩, ⟨"B", 122, 80, 180, "AB"⟩,
          ⟨"C", 192, 135, 275, "BC"⟩] : List Waypoint).length →
      (wpAt [⟨"A", 0, 0, 0, "Starting Point"⟩, ⟨"B", 122, 80, 180, "AB"⟩,
        ⟨"C", 192, 135, 275, "BC"⟩] i).cumulative_cost ≤
      (wpAt [⟨"A", 0, 0, 0, "Starting Point"⟩, ⟨"B", 122, 80, 180, "AB"⟩,
        ⟨"C", 192, 135, 275, "BC"⟩] j).cumulative_cost) :=
  ucs_search_ledger_prefix_sums scenarioABC "A" "C" 10 _ 192 135 275
    (by with_unfolding_all rfl)

/-- C5 counterexample: `add_highway` accepts a negative toll, the resulting
record has cost `-9`, and the successful run returns a ledger whose
cumulative_cost strictly decreases from the first waypoint (0) to the
second (-9) — so the monotonicity part of the claim fails without a
non-negativity assumption. -/
theorem navNegative_ledger_cost_decreases :
    ucs_search navNegative "A" "B" 5 =
      some (.found [⟨"A", 0, 0, 0, "Starting Point"⟩,
        ⟨"B", -9, 1, -100, "NegRoad"⟩] (-9) 1 (-100)) ∧
    ¬ ((wpAt [⟨"A", 0, 0, 0, "Starting Point"⟩,
          ⟨"B", -9, 1, -100, "NegRoad"⟩] 0).cumulative_cost ≤
       (wpAt [⟨"A", 0, 0, 0, "Starting Point"⟩,
          ⟨"B", -9, 1, -100, "NegRoad"⟩] 1).cumulative_cost) := by
  constructor
  · with_unfolding_all rfl
  · with_unfolding_all decide


/-! ### Claim C3: behaviour of add_highway -/

/-- C3: every call `add_highway from_loc to_loc distance traffic toll label`
appends exactly one directed record per direction — two records total, both
carrying cost `distance * traffic + toll / 10` and identical descriptive
fields (when the endpoints coincide the single list receives both records) —
auto-creates adjacency entries for unseen endpoints, leaves every other
adjacency list untouched, and registers no display name. -/
theorem add_highway_appends_two_records
    (nav : PhilippineHighwayNavigatorUCS) (f t : String)
    (d tf toll : ℚ) (name : String) :
    (add_highway nav f t d tf toll name).locations = nav.locations ∧
    (∀ x, x ≠ f → x ≠ t →
      dictLookup (add_highway nav f t d tf toll name).graph x =
        dictLookup nav.graph x) ∧
    (f ≠ t →
      dictLookup (add_highway nav f t d tf toll name).graph f =
        some ((dictLookup nav.graph f).getD [] ++
          [⟨t, d * tf + toll / 10, d, tf, toll, name⟩]) ∧
      dictLookup (add_highway nav f t d tf toll name).graph t =
        some ((dictLookup nav.graph t).getD [] ++
          [⟨f, d * tf + toll / 10, d, tf, toll, name⟩])) ∧
    (f = t →
      dictLookup (add_highway nav f t d tf toll name).graph f =
        some ((dictLookup nav.graph f).getD [] ++
          [⟨t, d * tf + toll / 10, d, tf, toll, name⟩,
           ⟨f, d * tf + toll / 10, d, tf, toll, name⟩])) := by
  refine ⟨rfl, ?_, ?_, ?_⟩
  · intro x hxf hxt
    show dictLookup (dictAppend (dictAppend _ f _) t _) x = _
    rw [dictLookup_dictAppend_ne _ hxt, dictLookup_dictAppend_ne _ hxf,
      dictLookup_ensureKey_ne _ hxt, dictLookup_ensureKey_ne _ hxf]
  · intro hft
    have hef : dictLookup (ensureKey (ensureKey nav.graph f) t) f =
        some ((dictLookup nav.graph f).getD []) := by
      rw [dictLookup_ensureKey_ne _ hft, dictLookup_ensureKey_self]
    have het : dictLookup (ensureKey (ensureKey nav.graph f) t) t =
        some ((dictLookup nav.graph t).getD []) := by
      rw [dictLookup_ensureKey_self]
      rw [dictLookup_ensureKey_ne _ (Ne.symm hft)]
    constructor
    · show dictLookup (dictAppend (dictAppend _ f _) t _) f = _
      rw [dictLookup_dictAppend_ne _ hft,
        dictLookup_dictAppend_self hef]
    · show dictLookup (dictAppend (dictAppend _ f _) t _) t = _
      rw [dictLookup_dictAppend_self
        ((dictLookup_dictAppend_ne _ (Ne.symm hft) _).trans het)]
  · intro hft
    subst hft
    have hef : dictLookup (ensureKey (ensureKey nav.graph f) f) f =
        some ((dictLookup nav.graph f).getD []) := by
      rw [dictLookup_ensureKey_self, dictLookup_ensureKey_self]
      cases dictLookup nav.graph f <;> rfl
    show dictLookup (dictAppend (dictAppend _ f _) f _) f = _
    rw [dictLookup_dictAppend_self (dictLookup_dictAppend_self hef _),
      List.append_assoc]
    rfl

/-- Witness for C3: a concrete call on the empty navigator with distinct
endpoints, and a concrete self-loop call. -/
theorem add_highway_appends_two_records_witness :
    (add_highway emptyNavigator "A" "B" 2 3 40 "X").locations = [] ∧
    dictLookup (add_highway emptyNavigator "A" "B" 2 3 40 "X").graph "Z" = none ∧
    dictLookup (add_highway emptyNavigator "A" "B" 2 3 40 "X").graph "A" =
      some [⟨"B", 10, 2, 3, 40, "X"⟩] ∧
    dictLookup (add_highway emptyNavigator "A" "B" 2 3 40 "X").graph "B" =
      some [⟨"A", 10, 2, 3, 40, "X"⟩] ∧
    dictLookup (add_highway emptyNavigator "A" "A" 2 3 40 "X").graph "A" =
      some [⟨"A", 10, 2, 3, 40, "X"⟩, ⟨"A", 10, 2, 3, 40, "X"⟩] := by
  have h1 := add_highway_appends_two_records emptyNavigator "A" "B" 2 3 40 "X"
  have h2 := add_highway_appends_two_records emptyNavigator "A" "A" 2 3 40 "X"
  have hAB : ("A" : String) ≠ "B" := by decide
  refine ⟨h1.1, ?_, ?_, ?_, ?_⟩
  · have := h1.2.1 "Z" (by decide) (by decide)
    rw [this]; rfl
  · have := (h1.2.2.1 hAB).1
    rw [this]
    norm_num [emptyNavigator, dictLookup]
  · have := (h1.2.2.1 hAB).2
    rw [this]
    norm_num [emptyNavigator, dictLookup]
  · have := h2.2.2.2 rfl
    rw [this]
    norm_num [emptyNavigator, dictLookup]


/-! ### Claims C4 and C6: failure outcomes -/

/-- C4 counterexample: on a concrete graph with registered but disconnected
nodes `A`, `B` and unknown `X`, the unknown-location run and the
frontier-exhaustion run return the very same value, so the caller cannot
distinguish the two failure causes by inspecting the returned value. -/
theorem ucs_search_failures_indistinguishable :
    dictLookup navDisconnected.graph "X" = none ∧
    dictLookup navDisconnected.graph "A" = some [] ∧
    dictLookup navDisconnected.graph "B" = some [] ∧
    ucs_search navDisconnected "X" "B" 5 = some SearchResult.noRoute ∧
    ucs_search navDisconnected "A" "B" 5 = some SearchResult.noRoute := by
  refine ⟨?_, ?_, ?_, ?_, ?_⟩ <;> with_unfolding_all rfl

/-- C4 (amended): `ucs_search` has only two outcomes distinguishable by
value — the success 4-tuple and the single failure value
`(None, None, None, None)`; the unknown-location case returns exactly the
same failure value as the frontier-exhaustion case, so only success is
recognizable from the result. -/
theorem ucs_search_unknown_eq_noRoute
    (nav : PhilippineHighwayNavigatorUCS) (s g : String) (fuel : Nat)
    (h : dictLookup nav.graph s = none ∨ dictLookup nav.graph g = none) :
    ucs_search nav s g fuel = some SearchResult.noRoute := by
  unfold ucs_search
  rcases h with h | h <;> simp [h]

/-- Witness for C4 (amended): the unknown-start run on the concrete
disconnected navigator. -/
theorem ucs_search_unknown_eq_noRoute_witness :
    ucs_search navDisconnected "Q" "B" 7 = some SearchResult.noRoute :=
  ucs_search_unknown_eq_noRoute navDisconnected "Q" "B" 7
    (Or.inl (by with_unfolding_all rfl))

/-- C6: the error branch is taken exactly when start or goal lacks an
adjacency entry in the graph mapping (registration of a display name in
`locations` is irrelevant): with both adjacency entries present the
search proceeds into the UCS loop on identifiers alone, and the identifier
`N`, introduced only by `add_highway` and absent from `locations`, is
accepted as a start node and searched successfully. -/
theorem ucs_search_unknown_location_condition
    (nav : PhilippineHighwayNavigatorUCS) (s g : String) (fuel : Nat) :
    ((dictLookup nav.graph s = none ∨ dictLookup nav.graph g = none) →
      ucs_search nav s g fuel = some SearchResult.noRoute) ∧
    ((dictLookup nav.graph s).isSome → (dictLookup nav.graph g).isSome →
      ucs_search nav s g fuel =
        ucsLoop nav.graph g fuel [⟨0, s, [startWaypoint s]⟩] []) ∧
    (dictLookup navUnregistered.locations "N" = none ∧
      ucs_search navUnregistered "N" "A" 5 =
        some (.found [⟨"N", 0, 0, 0, "Starting Point"⟩, ⟨"A", 5, 5, 0, "Rd"⟩]
          5 5 0)) := by
  refine ⟨?_, ?_, ?_, ?_⟩
  · intro h
    rcases h with h | h <;> (unfold ucs_search; simp [h])
  · intro h1 h2
    unfold ucs_search
    rw [Option.isSome_iff_ne_none] at h1 h2
    simp [Option.isNone_iff_eq_none, h1, h2]
  · with_unfolding_all rfl
  · with_unfolding_all rfl

/-- Witness for C6: instantiated on the disconnected navigator, discharging
both the present-entries case and the missing-entry case. -/
theorem ucs_search_unknown_location_condition_witness :
    ucs_search navDisconnected "B" "A" 5 =
      ucsLoop navDisconnected.graph "A" 5 [⟨0, "B", [startWaypoint "B"]⟩] [] ∧
    ucs_search navDisconnected "R" "A" 5 = some SearchResult.noRoute :=
  ⟨(ucs_search_unknown_location_condition navDisconnected "B" "A" 5).2.1
      (by with_unfolding_all rfl) (by with_unfolding_all rfl),
    (ucs_search_unknown_location_condition navDisconnected "R" "A" 5).1
      (Or.inl (by with_unfolding_all rfl))⟩


/-! ### Claim C7: single-highway symmetry -/

/-- Unfolding equation of the loop body on a non-empty frontier. -/
theorem ucsLoop_cons (G : List (String × List Highway)) (goal : String)
    (fuel : Nat) (e : Entry) (rest : List Entry) (visited : List (String × ℚ)) :
    ucsLoop G goal (fuel + 1) (e :: rest) visited =
      if isStale visited e then ucsLoop G goal fuel rest visited
      else if e.location = goal then
        some (.found e.path_info e.cost
          (lastWaypoint e.path_info).cumulative_distance
          (lastWaypoint e.path_info).cumulative_toll)
      else
        ucsLoop G goal fuel
          (pushNeighbors (dictSet visited e.location e.cost) e
            (edgesOf G e.location) rest)
          (dictSet visited e.location e.cost) := rfl

theorem lastWaypoint_singleton (w : Waypoint) : lastWaypoint [w] = w := rfl

theorem lastWaypoint_pair (w1 w2 : Waypoint) : lastWaypoint [w1, w2] = w2 := rfl

/-- A complete symbolic run on a single-edge graph: when `s`'s adjacency
list is exactly `[h]` with `h` pointing at `g ≠ s` and `g` has an adjacency
entry, the search pops `s`, pushes the one extension, pops it at the goal and
returns the two-waypoint ledger with totals taken from `h`. -/
theorem ucs_search_single_edge
    (G : List (String × List Highway)) (locs : List (String × String))
    (s g : String) (h : Highway) (n : Nat)
    (hsg : s ≠ g) (hs : dictLookup G s = some [h]) (hn : h.neighbor = g)
    (hg : (dictLookup G g).isSome = true) :
    ucs_search ⟨G, locs⟩ s g (n + 2) =
      some (.found [startWaypoint s,
        ⟨g, h.cost, h.distance_km, h.toll_php,
          if h.highway_name = "" then "Local Road" else h.highway_name⟩]
        h.cost h.distance_km h.toll_php) := by
  have hgs : g ≠ s := Ne.symm hsg
  have hgn : (dictLookup G g).isNone = false := by
    cases hgl : dictLookup G g
    · rw [hgl] at hg; simp at hg
    · rfl
  have hedges : edgesOf G s = [h] := by rw [edgesOf, hs]; rfl
  unfold ucs_search
  simp only [hs, Option.isNone_some, hgn, Bool.or_self, Bool.false_eq_true, if_false]
  rw [show n + 2 = (n + 1) + 1 from rfl, ucsLoop_cons]
  simp only [isStale, dictLookup, hedges, hsg, hgs, hn,
    Bool.false_eq_true, if_false, reduceCtorEq, ite_false, ite_true]
  simp only [dictSet, pushNeighbors, shouldPush, pushEntry, dictLookup, hn, hgs,
    if_false, if_true, ite_false, ite_true, Bool.false_eq_true, reduceCtorEq,
    List.orderedInsert_nil, lastWaypoint_singleton, List.singleton_append,
    startWaypoint, zero_add]
  rw [ucsLoop_cons]
  simp only [isStale, dictLookup, hgs, reduceCtorEq, ite_false, ite_true,
    Bool.false_eq_true, if_false, lastWaypoint_pair]

/-- C7: on the graph built by registering two distinct nodes `A`, `B` and
calling `add_highway A B d tf toll name` once, the searches `A → B` and
`B → A` both succeed and return the same total_cost
`d * tf + toll / 10`. -/
theorem ucs_search_single_highway_symmetric
    (A B na nb : String) (d tf toll : ℚ) (name : String) (n : Nat)
    (hAB : A ≠ B) :
    ∃ L1 L2 : List Waypoint, ∃ d1 t1 d2 t2 : ℚ,
      ucs_search (add_highway (add_location (add_location emptyNavigator A na) B nb)
          A B d tf toll name) A B (n + 2) =
        some (.found L1 (d * tf + toll / 10) d1 t1) ∧
      ucs_search (add_highway (add_location (add_location emptyNavigator A na) B nb)
          A B d tf toll name) B A (n + 2) =
        some (.found L2 (d * tf + toll / 10) d2 t2) := by
  have hBA : B ≠ A := Ne.symm hAB
  have hbase1 : dictLookup
      (add_location (add_location emptyNavigator A na) B nb).graph A = some [] := by
    simp [add_location, emptyNavigator, dictLookup, hBA]
  have hbase2 : dictLookup
      (add_location (add_location emptyNavigator A na) B nb).graph B = some [] := by
    simp [add_location, emptyNavigator, dictLookup, hBA]
  obtain ⟨hA, hB⟩ := (add_highway_appends_two_records
    (add_location (add_location emptyNavigator A na) B nb)
    A B d tf toll name).2.2.1 hAB
  rw [hbase1] at hA
  rw [hbase2] at hB
  simp only [Option.getD_some, List.nil_append] at hA hB
  have hgB : (dictLookup (add_highway (add_location (add_location emptyNavigator A na)
      B nb) A B d tf toll name).graph B).isSome = true := by rw [hB]; rfl
  have hgA : (dictLookup (add_highway (add_location (add_location emptyNavigator A na)
      B nb) A B d tf toll name).graph A).isSome = true := by rw [hA]; rfl
  exact ⟨_, _, _, _, _, _,
    ucs_search_single_edge _ _ A B
      ⟨B, d * tf + toll / 10, d, tf, toll, name⟩ n hAB hA rfl hgB,
    ucs_search_single_edge _ _ B A
      ⟨A, d * tf + toll / 10, d, tf, toll, name⟩ n hBA hB rfl hgA⟩

/-- Witness for C7: a concrete two-node single-highway graph, both searches
returning total cost `2 * 3 + 40 / 10 = 10`. -/
theorem ucs_search_single_highway_symmetric_witness :
    ∃ L1 L2 : List Waypoint, ∃ d1 t1 d2 t2 : ℚ,
      ucs_search (add_highway (add_location (add_location emptyNavigator "A" "Alpha")
          "B" "Beta") "A" "B" 2 3 40 "X") "A" "B" 2 =
        some (.found L1 (2 * 3 + 40 / 10) d1 t1) ∧
      ucs_search (add_highway (add_location (add_location emptyNavigator "A" "Alpha")
          "B" "Beta") "A" "B" 2 3 40 "X") "B" "A" 2 =
        some (.found L2 (2 * 3 + 40 / 10) d2 t2) :=
  ucs_search_single_highway_symmetric "A" "B" "Alpha" "Beta" 2 3 40 "X" 0
    (by decide)


/-! ### Claim C8: repeated add_location -/

theorem dictLookup_eq_none_iff {α : Type} (m : List (String × α)) (k : String) :
    dictLookup m k = none ↔ k ∉ m.map Prod.fst := by
  induction m with
  | nil => simp [dictLookup]
  | cons p rest ih =>
    obtain ⟨k1, v1⟩ := p
    by_cases hk : k = k1
    · subst hk
      simp [dictLookup]
    · simp [dictLookup, hk, ih, Ne.symm hk]

theorem keys_dictSet {α : Type} (m : List (String × α)) (k : String) (v : α) :
    (dictSet m k v).map Prod.fst =
      if (dictLookup m k).isSome then m.map Prod.fst
      else m.map Prod.fst ++ [k] := by
  induction m with
  | nil => simp [dictSet, dictLookup]
  | cons p rest ih =>
    obtain ⟨k1, v1⟩ := p
    by_cases hk : k = k1
    · subst hk
      simp [dictSet, dictLookup]
    · simp only [dictSet, dictLookup, hk, if_false, List.map_cons, ih]
      split
      · rfl
      · simp

theorem keys_dictSet_nodup {α : Type} {m : List (String × α)}
    (h : (m.map Prod.fst).Nodup) (k : String) (v : α) :
    ((dictSet m k v).map Prod.fst).Nodup := by
  rw [keys_dictSet]
  split_ifs with hc
  · exact h
  · have hk : k ∉ m.map Prod.fst := by
      rw [← dictLookup_eq_none_iff]
      cases hl : dictLookup m k
      · rfl
      · rw [hl] at hc
        simp at hc
    simp [List.nodup_append, h, hk]

theorem mem_keys_of_dictLookup {α : Type} {m : List (String × α)} {k : String}
    {v : α} (h : dictLookup m k = some v) : k ∈ m.map Prod.fst := by
  by_contra hc
  rw [← dictLookup_eq_none_iff] at hc
  rw [h] at hc
  exact Option.noConfusion hc

/-- C8: calling `add_location` twice with the same id and two different
names leaves exactly one `locations` binding for that id, bearing the second
name; the `graph` mapping is completely untouched by the second call (so all
adjacency records present before it are preserved), and it holds exactly one
adjacency list for that id. -/
theorem add_location_twice
    (nav : PhilippineHighwayNavigatorUCS) (location_id n1 n2 : String)
    (hn : n1 ≠ n2)
    (hlocs : (nav.locations.map Prod.fst).Nodup)
    (hgraph : (nav.graph.map Prod.fst).Nodup) :
    dictLookup (add_location (add_location nav location_id n1) location_id n2).locations
      location_id = some n2 ∧
    (((add_location (add_location nav location_id n1) location_id n2).locations.map
      Prod.fst).count location_id) = 1 ∧
    (add_location (add_location nav location_id n1) location_id n2).graph =
      (add_location nav location_id n1).graph ∧
    (((add_location (add_location nav location_id n1) location_id n2).graph.map
      Prod.fst).count location_id) = 1 := by
  have hgeq : (add_location nav location_id n1).graph =
      (if (dictLookup nav.graph location_id).isSome then nav.graph
       else nav.graph ++ [(location_id, [])]) := rfl
  have hg1 : ((add_location nav location_id n1).graph.map Prod.fst).Nodup ∧
      location_id ∈ (add_location nav location_id n1).graph.map Prod.fst := by
    rw [hgeq]
    split_ifs with hc
    · refine ⟨hgraph, ?_⟩
      cases hl : dictLookup nav.graph location_id with
      | none => rw [hl] at hc; simp at hc
      | some es => exact mem_keys_of_dictLookup hl
    · have hk : location_id ∉ nav.graph.map Prod.fst := by
        rw [← dictLookup_eq_none_iff]
        cases hl : dictLookup nav.graph location_id
        · rfl
        · rw [hl] at hc; simp at hc
      constructor
      · simp [List.nodup_append, hgraph, hk]
      · simp
  have hg2 : (add_location (add_location nav location_id n1) location_id n2).graph =
      (add_location nav location_id n1).graph := by
    show (if (dictLookup (add_location nav location_id n1).graph location_id).isSome
      then (add_location nav location_id n1).graph
      else (add_location nav location_id n1).graph ++ [(location_id, [])]) =
      (add_location nav location_id n1).graph
    rw [if_pos]
    rw [Option.isSome_iff_ne_none, Ne, dictLookup_eq_none_iff]
    simp [hg1.2]
  refine ⟨?_, ?_, hg2, ?_⟩
  · exact dictLookup_dictSet_self _ _ _
  · have hnd : (((dictSet (dictSet nav.locations location_id n1) location_id n2).map
        Prod.fst)).Nodup :=
      keys_dictSet_nodup (keys_dictSet_nodup hlocs _ _) _ _
    have hmem : location_id ∈
        ((dictSet (dictSet nav.locations location_id n1) location_id n2).map Prod.fst) :=
      mem_keys_of_dictLookup (dictLookup_dictSet_self _ _ _)
    exact List.count_eq_one_of_mem hnd hmem
  · rw [hg2]
    exact List.count_eq_one_of_mem hg1.1 hg1.2

/-- Witness for C8: a concrete double registration over a navigator already
holding a highway on the same id. -/
theorem add_location_twice_witness :
    dictLookup (add_location (add_location
        (add_highway (add_location (add_location emptyNavigator "A" "Alpha")
          "B" "Beta") "A" "B" 2 3 40 "X")
        "A" "First") "A" "Second").locations "A" = some "Second" ∧
    (((add_location (add_location
        (add_highway (add_location (add_location emptyNavigator "A" "Alpha")
          "B" "Beta") "A" "B" 2 3 40 "X")
        "A" "First") "A" "Second").locations.map Prod.fst).count "A") = 1 ∧
    (add_location (add_location
        (add_highway (add_location (add_location emptyNavigator "A" "Alpha")
          "B" "Beta") "A" "B" 2 3 40 "X")
        "A" "First") "A" "Second").graph =
      (add_location
        (add_highway (add_location (add_location emptyNavigator "A" "Alpha")
          "B" "Beta") "A" "B" 2 3 40 "X")
        "A" "First").graph ∧
    (((add_location (add_location
        (add_highway (add_location (add_location emptyNavigator "A" "Alpha")
          "B" "Beta") "A" "B" 2 3 40 "X")
        "A" "First") "A" "Second").graph.map Prod.fst).count "A") = 1 :=
  add_location_twice
    (add_highway (add_location (add_location emptyNavigator "A" "Alpha")
      "B" "Beta") "A" "B" 2 3 40 "X")
    "A" "First" "Second" (by decide)
    (by with_unfolding_all decide) (by with_unfolding_all decide)

/-! ### Claim C9: reporter metrics -/

/-- C9: for every success result of `ucs_search`, the derived reporter
metrics are the pure functions `estimated_hours = total_distance / 60`,
`fuel_cost = total_distance * 2.5` and `trip_cost = total_toll + fuel_cost`
of the returned totals. -/
theorem analyze_metrics_formulas
    (nav : PhilippineHighwayNavigatorUCS) (start goal : String) (fuel : Nat)
    (L : List Waypoint) (c d t : ℚ)
    (hrun : ucs_search nav start goal fuel = some (.found L c d t)) :
    estimated_hours d = d / 60 ∧ fuel_cost d = d * 2.5 ∧
    trip_cost t d = t + fuel_cost d := ⟨rfl, rfl, rfl⟩

/-- Witness for C9: the metrics of the concrete three-node run
(distance 135, toll 275). -/
theorem analyze_metrics_formulas_witness :
    estimated_hours 135 = 135 / 60 ∧ fuel_cost 135 = 135 * 2.5 ∧
    trip_cost 275 135 = 275 + fuel_cost 135 :=
  analyze_metrics_formulas scenarioABC "A" "C" 10
    [⟨"A", 0, 0, 0, "Starting Point"⟩, ⟨"B", 122, 80, 180, "AB"⟩,
      ⟨"C", 192, 135, 275, "BC"⟩] 192 135 275 (by with_unfolding_all rfl)

end SmartPath
